import Mathlib

/-!
Verification of the role/client reconciliation algorithm of
`pkg/controller/keycloakclient/keycloakclient_reconciler.go`.

The Go code is shallowly embedded: Go structs become Lean structures,
Go slices become `List`, nil-able pointers become `Option`, and the
mutable `DesiredClusterState` accumulator becomes the returned action
list (actions are emitted in the exact order the Go code calls
`AddAction`).  Action messages, realm names and object references are
carried by the Go actions only for human-readable logging and are not
modelled; each action keeps its role payloads, which is everything the
reconciliation logic computes.  `DeepCopy` is the identity under value
semantics.
-/

namespace KeycloakOperator

/-- `kc.RoleRepresentation`: a role has a stable identifier `ID`
(empty string models the absent/unset id) and a `Name`. -/
structure RoleRepresentation where
  ID : String
  Name : String
  deriving DecidableEq, Repr

/-- `common.ClusterAction`: the closed union of actions the reconciler
can emit.  Client and secret actions carry no role payload; role
actions carry the (deep-copied) role values. -/
inductive ClusterAction where
  | PingAction : ClusterAction
  | CreateClientAction : ClusterAction
  | UpdateClientAction : ClusterAction
  | DeleteClientAction : ClusterAction
  | GenericCreateAction : ClusterAction
  | GenericUpdateAction : ClusterAction
  | CreateClientRoleAction : RoleRepresentation → ClusterAction
  | UpdateClientRoleAction : RoleRepresentation → RoleRepresentation → ClusterAction
  | DeleteClientRoleAction : RoleRepresentation → ClusterAction
  deriving DecidableEq, Repr

open ClusterAction

/-- `common.ClientState`: the observed snapshot.  `Client` and
`ClientSecret` are nil-able pointers in Go; only their presence is
consulted by the reconciler, so they are `Option Unit`. -/
structure ClientState where
  Client : Option Unit
  ClientSecret : Option Unit
  Roles : List RoleRepresentation
  deriving Repr

/-- `kc.KeycloakClientSpec`: the desired spec (only the part the
reconciler reads). -/
structure KeycloakClientSpec where
  Roles : List RoleRepresentation
  deriving Repr

/-- `kc.KeycloakClient`: the custom resource.  `DeletionTimestamp` is a
nil-able `*metav1.Time`; only nil-ness is consulted. -/
structure KeycloakClient where
  DeletionTimestamp : Option Unit
  Spec : KeycloakClientSpec
  deriving Repr

/-- `roleMatches`: if both roles carry a non-empty `ID`, equality is
decided by `ID` alone; otherwise it falls back to `Name` equality. -/
def roleMatches (a b : RoleRepresentation) : Bool :=
  if a.ID != "" && b.ID != "" then a.ID == b.ID
  else a.Name == b.Name

/-- `hasMatchingRole`: whether some element of `roles` matches
`otherRole`. -/
def hasMatchingRole (roles : List RoleRepresentation) (otherRole : RoleRepresentation) : Bool :=
  roles.any (fun role => roleMatches role otherRole)

/-- `roleDifferenceIntersection`: routes every element of `a` to the
difference `d` (no match in `b`) or the intersection `i` (some match
in `b`), preserving the order of `a`; returned roles are always
from `a`. -/
def roleDifferenceIntersection (a b : List RoleRepresentation) :
    List RoleRepresentation × List RoleRepresentation :=
  (a.filter (fun role => !(hasMatchingRole b role)),
   a.filter (fun role => hasMatchingRole b role))

/-- The Go map `existingRoleByID` built by inserting every observed
role keyed by its `ID`: a later insertion overwrites an earlier one,
so lookup returns the last role of the list with the given id, and the
zero value `{ID := "", Name := ""}` when no role has that id. -/
def existingRoleByID (roles : List RoleRepresentation) (id : String) : RoleRepresentation :=
  match roles.reverse.find? (fun role => role.ID == id) with
  | some role => role
  | none => { ID := "", Name := "" }

/-- The `renamedRolesOldNames` set: for every id-matched desired role
whose name differs from the observed role with the same id, the
observed (old) name.  The Go code fills this map during the update
loop and consults it only in the following loop, so the completed set
is the faithful model. -/
def renamedRolesOldNames (observedRoles rolesMatching : List RoleRepresentation) : List String :=
  (rolesMatching.filter (fun role =>
      role.ID != "" && role.Name != (existingRoleByID observedRoles role.ID).Name)).map
    (fun role => (existingRoleByID observedRoles role.ID).Name)

/-- `ReconcileRoles`: the role actions, in emission order — deletions
of unmatched observed roles, updates of id-matched desired roles,
update-or-create of name-matched desired roles without id, creations
of unmatched desired roles. -/
def ReconcileRoles (state : ClientState) (cr : KeycloakClient) : List ClusterAction :=
  let rolesDeleted := (roleDifferenceIntersection state.Roles cr.Spec.Roles).1
  let deleteActions := rolesDeleted.map (fun role => DeleteClientRoleAction role)
  let rolesMatching := (roleDifferenceIntersection cr.Spec.Roles state.Roles).2
  let updateActions := (rolesMatching.filter (fun role => role.ID != "")).map
    (fun role => UpdateClientRoleAction role (existingRoleByID state.Roles role.ID))
  let renamed := renamedRolesOldNames state.Roles rolesMatching
  let noIDActions := (rolesMatching.filter (fun role => role.ID == "")).map
    (fun role =>
      if renamed.contains role.Name then CreateClientRoleAction role
      else UpdateClientRoleAction role role)
  let rolesNew := (roleDifferenceIntersection cr.Spec.Roles state.Roles).1
  let createActions := rolesNew.map (fun role => CreateClientRoleAction role)
  deleteActions ++ updateActions ++ noIDActions ++ createActions

/-- `Reconcile`: ping first; on a set deletion timestamp only the
client delete; otherwise client create/update, secret create/update,
then the role actions. -/
def Reconcile (state : ClientState) (cr : KeycloakClient) : List ClusterAction :=
  [PingAction] ++
  (if cr.DeletionTimestamp.isSome then
    [DeleteClientAction]
  else
    [(if state.Client.isNone then CreateClientAction else UpdateClientAction)] ++
    [(if state.ClientSecret.isNone then GenericCreateAction else GenericUpdateAction)] ++
    ReconcileRoles state cr)

/-- Classification of actions: the three role-action constructors. -/
def isRoleAction : ClusterAction → Bool
  | CreateClientRoleAction _ => true
  | UpdateClientRoleAction _ _ => true
  | DeleteClientRoleAction _ => true
  | _ => false

/-- The role payloads an action carries. -/
def actionRoles : ClusterAction → List RoleRepresentation
  | CreateClientRoleAction r => [r]
  | UpdateClientRoleAction n p => [n, p]
  | DeleteClientRoleAction r => [r]
  | _ => []

/-- The "new" (to-be-applied) role payload of an action, when it has
one: the created role, or the updated role's new value. -/
def newRole : ClusterAction → Option RoleRepresentation
  | CreateClientRoleAction r => some r
  | UpdateClientRoleAction n _ => some n
  | _ => none

/-! ### Helper lemmas -/

theorem count_filter_of_neg {α : Type} [DecidableEq α] {p : α → Bool} {a : α}
    (l : List α) (h : p a = false) : (l.filter p).count a = 0 := by
  rw [List.count_eq_zero]
  intro hmem
  rw [List.mem_filter] at hmem
  rw [h] at hmem
  simp at hmem

theorem count_map_inj {α β : Type} [DecidableEq α] [DecidableEq β] (f : α → β)
    (hf : ∀ x y, f x = f y → x = y) (l : List α) (a : α) :
    (l.map f).count (f a) = l.count a := by
  rw [List.count_eq_countP, List.countP_map, List.count_eq_countP]
  apply List.countP_congr
  intro x hx
  simp only [Function.comp_apply, beq_iff_eq]
  exact ⟨fun h => hf x a h, fun h => by rw [h]⟩

theorem roleMatches_refl (r : RoleRepresentation) : roleMatches r r = true := by
  unfold roleMatches
  by_cases h : r.ID = "" <;> simp [h]

/-- `ReconcileRoles` unfolded to its four appended passes. -/
theorem ReconcileRoles_eq (state : ClientState) (cr : KeycloakClient) :
    ReconcileRoles state cr =
      ((state.Roles.filter (fun role => !(hasMatchingRole cr.Spec.Roles role))).map
        (fun role => DeleteClientRoleAction role)) ++
      (((cr.Spec.Roles.filter (fun role => hasMatchingRole state.Roles role)).filter
          (fun role => role.ID != "")).map
        (fun role => UpdateClientRoleAction role (existingRoleByID state.Roles role.ID))) ++
      (((cr.Spec.Roles.filter (fun role => hasMatchingRole state.Roles role)).filter
          (fun role => role.ID == "")).map
        (fun role =>
          if (renamedRolesOldNames state.Roles
                (cr.Spec.Roles.filter (fun role => hasMatchingRole state.Roles role))).contains
              role.Name
          then CreateClientRoleAction role
          else UpdateClientRoleAction role role)) ++
      ((cr.Spec.Roles.filter (fun role => !(hasMatchingRole state.Roles role))).map
        (fun role => CreateClientRoleAction role)) := by
  simp only [ReconcileRoles, roleDifferenceIntersection]

theorem mem_ReconcileRoles_isRoleAction (state : ClientState) (cr : KeycloakClient)
    (a : ClusterAction) (ha : a ∈ ReconcileRoles state cr) : isRoleAction a = true := by
  rw [ReconcileRoles_eq] at ha
  simp only [List.mem_append, List.mem_map, List.mem_filter] at ha
  rcases ha with ((⟨r, -, rfl⟩ | ⟨r, -, rfl⟩) | ⟨r, -, h⟩) | ⟨r, -, rfl⟩
  · rfl
  · rfl
  · split at h <;> rw [← h] <;> rfl
  · rfl

theorem count_ReconcileRoles_of_not_role (state : ClientState) (cr : KeycloakClient)
    (a : ClusterAction) (ha : isRoleAction a = false) :
    (ReconcileRoles state cr).count a = 0 := by
  rw [List.count_eq_zero]
  intro hmem
  rw [mem_ReconcileRoles_isRoleAction state cr a hmem] at ha
  simp at ha

/-- The map lookup returns either a member of `roles` carrying the
looked-up id, or the zero value when no role has that id. -/
theorem existingRoleByID_spec (roles : List RoleRepresentation) (id : String) :
    (existingRoleByID roles id ∈ roles ∧ (existingRoleByID roles id).ID = id) ∨
      existingRoleByID roles id = { ID := "", Name := "" } := by
  unfold existingRoleByID
  cases hf : roles.reverse.find? (fun role => role.ID == id) with
  | none => right; rfl
  | some r =>
      left
      refine ⟨List.mem_reverse.mp (List.mem_of_find?_eq_some hf), ?_⟩
      simpa using List.find?_some hf

/-- When `obs` is the unique role of `roles` with id `id`, the map
lookup returns `obs`. -/
theorem existingRoleByID_eq_of_uniq (roles : List RoleRepresentation) (id : String)
    (obs : RoleRepresentation) (hobs : obs ∈ roles) (hid : obs.ID = id)
    (huniq : ∀ o ∈ roles, o.ID = id → o = obs) :
    existingRoleByID roles id = obs := by
  unfold existingRoleByID
  cases hf : roles.reverse.find? (fun role => role.ID == id) with
  | none =>
      rw [List.find?_eq_none] at hf
      exact absurd (by simpa using hid) (by simpa using hf obs (List.mem_reverse.mpr hobs))
  | some r =>
      have hr : r ∈ roles := List.mem_reverse.mp (List.mem_of_find?_eq_some hf)
      have hrid : r.ID = id := by simpa using List.find?_some hf
      exact huniq r hr hrid

/-! ### Claims -/

/-- C2: `roleMatches a b` is true iff both ids are non-empty and equal
(names ignored), or at least one id is empty and the names are
equal. -/
theorem C2_roleMatches_iff (a b : RoleRepresentation) :
    roleMatches a b = true ↔
      ((a.ID ≠ "" ∧ b.ID ≠ "" ∧ a.ID = b.ID) ∨
       ((a.ID = "" ∨ b.ID = "") ∧ a.Name = b.Name)) := by
  unfold roleMatches
  by_cases h1 : a.ID = "" <;> by_cases h2 : b.ID = "" <;> simp [h1, h2]

/-- C5: when the parent's deletion timestamp is set, `Reconcile`
returns exactly the ping action followed by a single parent-delete
action, with no role, secret or parent create/update actions,
regardless of the rest of the state. -/
theorem C5_deletion_short_circuit (state : ClientState) (cr : KeycloakClient)
    (h : cr.DeletionTimestamp.isSome = true) :
    Reconcile state cr = [PingAction, DeleteClientAction] := by
  simp [Reconcile, h]

/-- Witness for C5 at a concrete input with a set deletion timestamp,
a present client and secret, and non-trivial role state. -/
theorem C5_deletion_short_circuit_witness :
    Reconcile ⟨some (), some (), [⟨"1", "a"⟩]⟩ ⟨some (), ⟨[⟨"2", "b"⟩]⟩⟩ =
      [PingAction, DeleteClientAction] :=
  C5_deletion_short_circuit _ _ rfl

/-- C8: the result of `Reconcile` always begins with the ping action
and contains exactly one ping action, on both the deletion path and
the normal path. -/
theorem C8_ping_first (state : ClientState) (cr : KeycloakClient) :
    (Reconcile state cr).head? = some PingAction ∧
      (Reconcile state cr).count PingAction = 1 := by
  constructor
  · unfold Reconcile
    split <;> rfl
  · unfold Reconcile
    split
    · rfl
    · split <;> split <;>
        simp [List.count_append, List.count_cons,
          count_ReconcileRoles_of_not_role state cr PingAction rfl]

/-- C4: every matched desired role with a non-empty id yields an
`UpdateClientRoleAction` whose previous payload is the observed role
carrying that id (stated for the unique observed role with that id);
and on observed `{id:1,name:a}`, desired `{id:1,name:b}` the role
actions are the single rename update, with no create and no delete. -/
theorem C4_id_matched_update :
    (∀ (state : ClientState) (cr : KeycloakClient) (role obs : RoleRepresentation),
       role ∈ (roleDifferenceIntersection cr.Spec.Roles state.Roles).2 →
       role.ID ≠ "" →
       obs ∈ state.Roles → obs.ID = role.ID →
       (∀ o ∈ state.Roles, o.ID = role.ID → o = obs) →
       UpdateClientRoleAction role obs ∈ ReconcileRoles state cr) ∧
    ReconcileRoles ⟨some (), some (), [⟨"1", "a"⟩]⟩ ⟨none, ⟨[⟨"1", "b"⟩]⟩⟩ =
      [UpdateClientRoleAction ⟨"1", "b"⟩ ⟨"1", "a"⟩] := by
  constructor
  · intro state cr role obs hmem hid hobs hoid huniq
    have hex : existingRoleByID state.Roles role.ID = obs :=
      existingRoleByID_eq_of_uniq state.Roles role.ID obs hobs hoid huniq
    simp only [roleDifferenceIntersection] at hmem
    rw [ReconcileRoles_eq]
    simp only [List.mem_append]
    left; left; right
    rw [← hex]
    exact List.mem_map_of_mem _ (List.mem_filter.mpr ⟨hmem, by simpa using hid⟩)
  · rfl

/-- C1: every matched desired role with an empty id yields a
`CreateClientRoleAction` when its name lies in the renamed-old-names
set built from the id-matched pass, and a self-paired
`UpdateClientRoleAction` otherwise; and on observed `{id:1,name:a}`,
desired `{id:1,name:b}` and `{id:"",name:a}` the role actions are the
rename update followed by a create of `a`, with no update for `a`. -/
theorem C1_matched_without_id :
    (∀ (state : ClientState) (cr : KeycloakClient) (role : RoleRepresentation),
       role ∈ (roleDifferenceIntersection cr.Spec.Roles state.Roles).2 →
       role.ID = "" →
       (role.Name ∈ renamedRolesOldNames state.Roles
            (roleDifferenceIntersection cr.Spec.Roles state.Roles).2 →
          CreateClientRoleAction role ∈ ReconcileRoles state cr) ∧
       (role.Name ∉ renamedRolesOldNames state.Roles
            (roleDifferenceIntersection cr.Spec.Roles state.Roles).2 →
          UpdateClientRoleAction role role ∈ ReconcileRoles state cr)) ∧
    ReconcileRoles ⟨some (), some (), [⟨"1", "a"⟩]⟩ ⟨none, ⟨[⟨"1", "b"⟩, ⟨"", "a"⟩]⟩⟩ =
      [UpdateClientRoleAction ⟨"1", "b"⟩ ⟨"1", "a"⟩, CreateClientRoleAction ⟨"", "a"⟩] := by
  constructor
  · intro state cr role hmem hid
    simp only [roleDifferenceIntersection] at hmem
    have hmf : role ∈ (cr.Spec.Roles.filter
        (fun role => hasMatchingRole state.Roles role)).filter (fun role => role.ID == "") :=
      List.mem_filter.mpr ⟨hmem, by simpa using hid⟩
    constructor
    · intro hc
      rw [ReconcileRoles_eq]
      simp only [List.mem_append]
      left; right
      have := List.mem_map_of_mem (fun role =>
        if (renamedRolesOldNames state.Roles (cr.Spec.Roles.filter
              (fun role => hasMatchingRole state.Roles role))).contains role.Name
        then CreateClientRoleAction role
        else UpdateClientRoleAction role role) hmf
      simp only [roleDifferenceIntersection] at hc
      simpa [hc] using this
    · intro hc
      rw [ReconcileRoles_eq]
      simp only [List.mem_append]
      left; right
      have := List.mem_map_of_mem (fun role =>
        if (renamedRolesOldNames state.Roles (cr.Spec.Roles.filter
              (fun role => hasMatchingRole state.Roles role))).contains role.Name
        then CreateClientRoleAction role
        else UpdateClientRoleAction role role) hmf
      simp only [roleDifferenceIntersection] at hc
      simpa [hc] using this
  · rfl

/-- C9: off the deletion path, `Reconcile` emits exactly one parent
action (create iff the observed client is absent, update otherwise)
and exactly one secret action (create iff the observed secret is
absent, update otherwise). -/
theorem C9_single_object_actions (state : ClientState) (cr : KeycloakClient)
    (h : cr.DeletionTimestamp = none) :
    (Reconcile state cr).count CreateClientAction = (if state.Client.isNone then 1 else 0) ∧
    (Reconcile state cr).count UpdateClientAction = (if state.Client.isNone then 0 else 1) ∧
    (Reconcile state cr).count GenericCreateAction = (if state.ClientSecret.isNone then 1 else 0) ∧
    (Reconcile state cr).count GenericUpdateAction = (if state.ClientSecret.isNone then 0 else 1) := by
  have h1 := count_ReconcileRoles_of_not_role state cr CreateClientAction rfl
  have h2 := count_ReconcileRoles_of_not_role state cr UpdateClientAction rfl
  have h3 := count_ReconcileRoles_of_not_role state cr GenericCreateAction rfl
  have h4 := count_ReconcileRoles_of_not_role state cr GenericUpdateAction rfl
  unfold Reconcile
  rw [h]
  cases state.Client <;> cases state.ClientSecret <;>
    simp [List.count_append, List.count_cons, h1, h2, h3, h4]

/-- Witness for C9 at a concrete input: no deletion timestamp, absent
client object, present secret. -/
theorem C9_single_object_actions_witness :
    (Reconcile ⟨none, some (), [⟨"1", "a"⟩]⟩ ⟨none, ⟨[]⟩⟩).count CreateClientAction =
        (if (none : Option Unit).isNone then 1 else 0) ∧
    (Reconcile ⟨none, some (), [⟨"1", "a"⟩]⟩ ⟨none, ⟨[]⟩⟩).count UpdateClientAction =
        (if (none : Option Unit).isNone then 0 else 1) ∧
    (Reconcile ⟨none, some (), [⟨"1", "a"⟩]⟩ ⟨none, ⟨[]⟩⟩).count GenericCreateAction =
        (if (some ()).isNone then 1 else 0) ∧
    (Reconcile ⟨none, some (), [⟨"1", "a"⟩]⟩ ⟨none, ⟨[]⟩⟩).count GenericUpdateAction =
        (if (some ()).isNone then 0 else 1) :=
  C9_single_object_actions ⟨none, some (), [⟨"1", "a"⟩]⟩ ⟨none, ⟨[]⟩⟩ rfl

/-- C6: when the desired and observed role collections are the same
list of `(id, name)` pairs (every observed id being non-empty, as the
remote system guarantees), every emitted role action is an update, and
the output is determined by the two role collections alone, so
re-running on the same inputs yields the same list. -/
theorem C6_noop_idempotent (state : ClientState) (cr : KeycloakClient)
    (hids : ∀ r ∈ state.Roles, r.ID ≠ "")
    (heq : cr.Spec.Roles = state.Roles) :
    (∀ a ∈ ReconcileRoles state cr, ∃ n p, a = UpdateClientRoleAction n p) ∧
    (∀ (state2 : ClientState) (cr2 : KeycloakClient), state2.Roles = state.Roles →
       cr2.Spec.Roles = cr.Spec.Roles → ReconcileRoles state2 cr2 = ReconcileRoles state cr) := by
  have hmatch : ∀ r ∈ state.Roles, hasMatchingRole state.Roles r = true := by
    intro r hr
    unfold hasMatchingRole
    rw [List.any_eq_true]
    exact ⟨r, hr, roleMatches_refl r⟩
  constructor
  · intro a ha
    rw [ReconcileRoles_eq, heq] at ha
    simp only [List.mem_append, List.mem_map, List.mem_filter] at ha
    rcases ha with ((⟨r, hr, rfl⟩ | ⟨r, hr, rfl⟩) | ⟨r, hr, hx⟩) | ⟨r, hr, rfl⟩
    · rw [hmatch r hr.1] at hr
      simp at hr
    · exact ⟨r, existingRoleByID state.Roles r.ID, rfl⟩
    · exfalso
      have hrid : r.ID ≠ "" := hids r hr.1.1
      have : (r.ID == "") = true := hr.2
      simp at this
      exact hrid this
    · rw [hmatch r hr.1] at hr
      simp at hr
  · intro state2 cr2 h1 h2
    simp only [ReconcileRoles, roleDifferenceIntersection, h1, h2]

/-- Witness for C6 at a concrete input: identical desired and observed
role collections with non-empty ids. -/
theorem C6_noop_idempotent_witness :
    (∀ a ∈ ReconcileRoles ⟨some (), some (), [⟨"1", "a"⟩, ⟨"2", "b"⟩]⟩
        ⟨none, ⟨[⟨"1", "a"⟩, ⟨"2", "b"⟩]⟩⟩, ∃ n p, a = UpdateClientRoleAction n p) ∧
    (∀ (state2 : ClientState) (cr2 : KeycloakClient),
       state2.Roles = ClientState.Roles ⟨some (), some (), [⟨"1", "a"⟩, ⟨"2", "b"⟩]⟩ →
       cr2.Spec.Roles = KeycloakClientSpec.Roles (KeycloakClient.Spec ⟨none, ⟨[⟨"1", "a"⟩, ⟨"2", "b"⟩]⟩⟩) →
       ReconcileRoles state2 cr2 =
         ReconcileRoles ⟨some (), some (), [⟨"1", "a"⟩, ⟨"2", "b"⟩]⟩
           ⟨none, ⟨[⟨"1", "a"⟩, ⟨"2", "b"⟩]⟩⟩) :=
  C6_noop_idempotent ⟨some (), some (), [⟨"1", "a"⟩, ⟨"2", "b"⟩]⟩
    ⟨none, ⟨[⟨"1", "a"⟩, ⟨"2", "b"⟩]⟩⟩ (by decide) rfl

/-- C3: with every observed id non-empty, an observed role whose id
matches no desired id and whose name coincides only with desired roles
carrying a different non-empty id is deleted (and referenced by no
update); a desired role with a non-empty id absent from the observed
ids is created (and is the new payload of no update), even when its
name equals an observed name — so a name collision without id
continuity yields delete plus create. -/
theorem C3_id_mismatch_wins (state : ClientState) (cr : KeycloakClient)
    (hids : ∀ r ∈ state.Roles, r.ID ≠ "") :
    (∀ obs ∈ state.Roles,
       (∀ d ∈ cr.Spec.Roles, d.ID ≠ obs.ID ∧ (d.Name = obs.Name → d.ID ≠ "")) →
       DeleteClientRoleAction obs ∈ ReconcileRoles state cr ∧
       (∀ n p, UpdateClientRoleAction n p ∈ ReconcileRoles state cr → n ≠ obs ∧ p ≠ obs)) ∧
    (∀ d ∈ cr.Spec.Roles, d.ID ≠ "" → (∀ obs ∈ state.Roles, obs.ID ≠ d.ID) →
       CreateClientRoleAction d ∈ ReconcileRoles state cr ∧
       (∀ p, UpdateClientRoleAction d p ∉ ReconcileRoles state cr)) := by
  constructor
  · intro obs hobs hcond
    have hobsid : obs.ID ≠ "" := hids obs hobs
    have hnm : hasMatchingRole cr.Spec.Roles obs = false := by
      unfold hasMatchingRole
      rw [List.any_eq_false]
      intro d hd
      obtain ⟨hdid, hdname⟩ := hcond d hd
      unfold roleMatches
      by_cases hdID : d.ID = ""
      · simp only [hdID]
        simp
        intro hne
        exact (hdname hne) hdID
      · simp [hdID, hobsid]
        exact hdid
    constructor
    · rw [ReconcileRoles_eq]
      simp only [List.mem_append]
      left; left; left
      exact List.mem_map_of_mem _ (List.mem_filter.mpr ⟨hobs, by simp [hnm]⟩)
    · intro n p hmem
      rw [ReconcileRoles_eq] at hmem
      simp only [List.mem_append, List.mem_map, List.mem_filter] at hmem
      rcases hmem with ((⟨r, hr, heq2⟩ | ⟨r, hr, heq2⟩) | ⟨r, hr, heq2⟩) | ⟨r, hr, heq2⟩
      · simp at heq2
      · injection heq2 with h1 h2
        subst h1
        subst h2
        have hrdes : r ∈ cr.Spec.Roles := hr.1.1
        constructor
        · intro hcontra
          exact (hcond r hrdes).1 (by rw [hcontra])
        · intro hcontra
          rcases existingRoleByID_spec state.Roles r.ID with ⟨-, hEQ⟩ | hzero
          · rw [hcontra] at hEQ
            exact (hcond r hrdes).1 hEQ.symm
          · rw [hcontra] at hzero
            exact hobsid (by rw [hzero])
      · split at heq2
        · simp at heq2
        · injection heq2 with h1 h2
          subst h1
          subst h2
          have hrid : r.ID = "" := by simpa using hr.2
          constructor
          · intro hcontra
            rw [hcontra] at hrid
            exact hobsid hrid
          · intro hcontra
            rw [hcontra] at hrid
            exact hobsid hrid
      · simp at heq2
  · intro d hd hdid hnoobs
    have hnm : hasMatchingRole state.Roles d = false := by
      unfold hasMatchingRole
      rw [List.any_eq_false]
      intro o ho
      have hoid : o.ID ≠ "" := hids o ho
      unfold roleMatches
      simp [hoid, hdid]
      exact hnoobs o ho
    constructor
    · rw [ReconcileRoles_eq]
      simp only [List.mem_append]
      right
      exact List.mem_map_of_mem _ (List.mem_filter.mpr ⟨hd, by simp [hnm]⟩)
    · intro p hmem
      rw [ReconcileRoles_eq] at hmem
      simp only [List.mem_append, List.mem_map, List.mem_filter] at hmem
      rcases hmem with ((⟨r, hr, heq2⟩ | ⟨r, hr, heq2⟩) | ⟨r, hr, heq2⟩) | ⟨r, hr, heq2⟩
      · simp at heq2
      · injection heq2 with h1 h2
        have hm := hr.1.2
        rw [h1] at hm
        rw [hm] at hnm
        simp at hnm
      · split at heq2
        · simp at heq2
        · injection heq2 with h1 h2
          have hrid : r.ID = "" := by simpa using hr.2
          rw [h1] at hrid
          exact hdid hrid
      · simp at heq2

/-- Witness for C3: observed `{id:1,name:a}` versus desired
`{id:2,name:a}` — a name collision without id continuity. -/
theorem C3_id_mismatch_wins_witness :
    DeleteClientRoleAction ⟨"1", "a"⟩ ∈
        ReconcileRoles ⟨some (), some (), [⟨"1", "a"⟩]⟩ ⟨none, ⟨[⟨"2", "a"⟩]⟩⟩ ∧
    CreateClientRoleAction ⟨"2", "a"⟩ ∈
        ReconcileRoles ⟨some (), some (), [⟨"1", "a"⟩]⟩ ⟨none, ⟨[⟨"2", "a"⟩]⟩⟩ :=
  ⟨((C3_id_mismatch_wins ⟨some (), some (), [⟨"1", "a"⟩]⟩ ⟨none, ⟨[⟨"2", "a"⟩]⟩⟩
      (by decide)).1 ⟨"1", "a"⟩ (by decide) (by decide)).1,
   ((C3_id_mismatch_wins ⟨some (), some (), [⟨"1", "a"⟩]⟩ ⟨none, ⟨[⟨"2", "a"⟩]⟩⟩
      (by decide)).2 ⟨"2", "a"⟩ (by decide) (by decide) (by decide)).1⟩

/-- The role-action list splits into a delete-only prefix followed by
a create/update-only suffix. -/
theorem ReconcileRoles_split (state : ClientState) (cr : KeycloakClient) :
    ∃ pre post, ReconcileRoles state cr = pre ++ post ∧
      (∀ a ∈ pre, ∃ r, a = DeleteClientRoleAction r) ∧
      (∀ a ∈ post, (∃ r, a = CreateClientRoleAction r) ∨
         ∃ n p, a = UpdateClientRoleAction n p) := by
  refine ⟨(state.Roles.filter (fun role => !(hasMatchingRole cr.Spec.Roles role))).map
      (fun role => DeleteClientRoleAction role),
    (((cr.Spec.Roles.filter (fun role => hasMatchingRole state.Roles role)).filter
        (fun role => role.ID != "")).map
      (fun role => UpdateClientRoleAction role (existingRoleByID state.Roles role.ID))) ++
    (((cr.Spec.Roles.filter (fun role => hasMatchingRole state.Roles role)).filter
        (fun role => role.ID == "")).map
      (fun role =>
        if (renamedRolesOldNames state.Roles
              (cr.Spec.Roles.filter (fun role => hasMatchingRole state.Roles role))).contains
            role.Name
        then CreateClientRoleAction role
        else UpdateClientRoleAction role role)) ++
    ((cr.Spec.Roles.filter (fun role => !(hasMatchingRole state.Roles role))).map
      (fun role => CreateClientRoleAction role)), ?_, ?_, ?_⟩
  · rw [ReconcileRoles_eq]
    simp [List.append_assoc]
  · intro a ha
    simp only [List.mem_map] at ha
    obtain ⟨r, -, rfl⟩ := ha
    exact ⟨r, rfl⟩
  · intro a ha
    simp only [List.mem_append, List.mem_map] at ha
    rcases ha with (⟨r, -, rfl⟩ | ⟨r, -, hx⟩) | ⟨r, -, rfl⟩
    · exact Or.inr ⟨r, existingRoleByID state.Roles r.ID, rfl⟩
    · split at hx
      · exact Or.inl ⟨r, hx.symm⟩
      · exact Or.inr ⟨r, r, hx.symm⟩
    · exact Or.inl ⟨r, rfl⟩

/-- C10: in the role-action list every `DeleteClientRoleAction`
precedes every `CreateClientRoleAction` and every
`UpdateClientRoleAction`; in particular a name collision without id
continuity puts the delete of the old role before the create of the
new one. -/
theorem C10_deletes_precede :
    (∀ (state : ClientState) (cr : KeycloakClient) (i j : Nat)
       (hi : i < (ReconcileRoles state cr).length)
       (hj : j < (ReconcileRoles state cr).length),
       (∃ r, (ReconcileRoles state cr)[i] = DeleteClientRoleAction r) →
       ((∃ r, (ReconcileRoles state cr)[j] = CreateClientRoleAction r) ∨
        ∃ n p, (ReconcileRoles state cr)[j] = UpdateClientRoleAction n p) →
       i < j) ∧
    ReconcileRoles ⟨some (), some (), [⟨"1", "a"⟩]⟩ ⟨none, ⟨[⟨"2", "a"⟩]⟩⟩ =
      [DeleteClientRoleAction ⟨"1", "a"⟩, CreateClientRoleAction ⟨"2", "a"⟩] := by
  constructor
  · intro state cr i j hi hj hdel hcu
    obtain ⟨pre, post, heq, hpre, hpost⟩ := ReconcileRoles_split state cr
    have hi2 : i < (pre ++ post).length := heq ▸ hi
    have hj2 : j < (pre ++ post).length := heq ▸ hj
    have hilt : i < pre.length := by
      by_contra hge
      push_neg at hge
      have hsub : i - pre.length < post.length := by
        rw [List.length_append] at hi2
        omega
      have hgete : (ReconcileRoles state cr)[i] = post[i - pre.length] := by
        rw [List.getElem_of_eq heq hi, List.getElem_append_right hge]
      obtain ⟨r, hr⟩ := hdel
      rw [hgete] at hr
      rcases hpost _ (List.getElem_mem hsub) with ⟨c, hc⟩ | ⟨n, p, hc⟩ <;>
        rw [hr] at hc <;> simp at hc
    have hjge : pre.length ≤ j := by
      by_contra hlt
      push_neg at hlt
      have hgete : (ReconcileRoles state cr)[j] = pre[j] := by
        rw [List.getElem_of_eq heq hj, List.getElem_append_left hlt]
      obtain ⟨r, hr⟩ := hpre _ (List.getElem_mem hlt)
      rcases hcu with ⟨c, hc⟩ | ⟨n, p, hc⟩ <;>
        rw [hgete, hr] at hc <;> simp at hc
    omega
  · rfl

/-- Occurrences of a delete action in the role-action list are exactly
the occurrences of its payload among the unmatched observed roles. -/
theorem count_delete_ReconcileRoles (state : ClientState) (cr : KeycloakClient)
    (obs : RoleRepresentation) :
    (ReconcileRoles state cr).count (DeleteClientRoleAction obs) =
      (state.Roles.filter (fun role => !(hasMatchingRole cr.Spec.Roles role))).count obs := by
  rw [ReconcileRoles_eq, List.count_append, List.count_append, List.count_append]
  have h1 := count_map_inj (fun role => DeleteClientRoleAction role)
    (fun x y h => by injection h)
    (state.Roles.filter (fun role => !(hasMatchingRole cr.Spec.Roles role))) obs
  have h2 : ((((cr.Spec.Roles.filter (fun role => hasMatchingRole state.Roles role)).filter
      (fun role => role.ID != "")).map
      (fun role => UpdateClientRoleAction role (existingRoleByID state.Roles role.ID))).count
      (DeleteClientRoleAction obs)) = 0 := by
    rw [List.count_eq_zero]
    intro hmem
    simp only [List.mem_map] at hmem
    obtain ⟨r, -, hx⟩ := hmem
    simp at hx
  have h3 : ((((cr.Spec.Roles.filter (fun role => hasMatchingRole state.Roles role)).filter
      (fun role => role.ID == "")).map
      (fun role =>
        if (renamedRolesOldNames state.Roles
              (cr.Spec.Roles.filter (fun role => hasMatchingRole state.Roles role))).contains
            role.Name
        then CreateClientRoleAction role
        else UpdateClientRoleAction role role)).count (DeleteClientRoleAction obs)) = 0 := by
    rw [List.count_eq_zero]
    intro hmem
    simp only [List.mem_map] at hmem
    obtain ⟨r, -, hx⟩ := hmem
    split at hx <;> simp at hx
  have h4 : (((cr.Spec.Roles.filter (fun role => !(hasMatchingRole state.Roles role))).map
      (fun role => CreateClientRoleAction role)).count (DeleteClientRoleAction obs)) = 0 := by
    rw [List.count_eq_zero]
    intro hmem
    simp only [List.mem_map] at hmem
    obtain ⟨r, -, hx⟩ := hmem
    simp at hx
  rw [h1, h2, h3, h4]
  omega

/-- For a desired role that matches no observed role, occurrences of
its create action in the role-action list are exactly its occurrences
among the unmatched desired roles. -/
theorem count_create_ReconcileRoles (state : ClientState) (cr : KeycloakClient)
    (d : RoleRepresentation) (hnm : hasMatchingRole state.Roles d = false) :
    (ReconcileRoles state cr).count (CreateClientRoleAction d) =
      (cr.Spec.Roles.filter (fun role => !(hasMatchingRole state.Roles role))).count d := by
  rw [ReconcileRoles_eq, List.count_append, List.count_append, List.count_append]
  have h1 : (((state.Roles.filter (fun role => !(hasMatchingRole cr.Spec.Roles role))).map
      (fun role => DeleteClientRoleAction role)).count (CreateClientRoleAction d)) = 0 := by
    rw [List.count_eq_zero]
    intro hmem
    simp only [List.mem_map] at hmem
    obtain ⟨r, -, hx⟩ := hmem
    simp at hx
  have h2 : ((((cr.Spec.Roles.filter (fun role => hasMatchingRole state.Roles role)).filter
      (fun role => role.ID != "")).map
      (fun role => UpdateClientRoleAction role (existingRoleByID state.Roles role.ID))).count
      (CreateClientRoleAction d)) = 0 := by
    rw [List.count_eq_zero]
    intro hmem
    simp only [List.mem_map] at hmem
    obtain ⟨r, -, hx⟩ := hmem
    simp at hx
  have h3 : ((((cr.Spec.Roles.filter (fun role => hasMatchingRole state.Roles role)).filter
      (fun role => role.ID == "")).map
      (fun role =>
        if (renamedRolesOldNames state.Roles
              (cr.Spec.Roles.filter (fun role => hasMatchingRole state.Roles role))).contains
            role.Name
        then CreateClientRoleAction role
        else UpdateClientRoleAction role role)).count (CreateClientRoleAction d)) = 0 := by
    rw [List.count_eq_zero]
    intro hmem
    simp only [List.mem_map, List.mem_filter] at hmem
    obtain ⟨r, ⟨⟨-, hrmatch⟩, -⟩, hx⟩ := hmem
    split at hx
    · injection hx with h5
      rw [h5] at hrmatch
      rw [hrmatch] at hnm
      simp at hnm
    · simp at hx
  have h4 := count_map_inj (fun role => CreateClientRoleAction role)
    (fun x y h => by injection h)
    (cr.Spec.Roles.filter (fun role => !(hasMatchingRole state.Roles role))) d
  rw [h1, h2, h3, h4]
  omega

/-- Occurrences of a role `d` as the "new" payload of an action: once
per occurrence of `d` in each of the three desired-role passes. -/
theorem countP_newRole_ReconcileRoles (state : ClientState) (cr : KeycloakClient)
    (d : RoleRepresentation) :
    (ReconcileRoles state cr).countP (fun a => newRole a == some d) =
      ((cr.Spec.Roles.filter (fun role => hasMatchingRole state.Roles role)).filter
        (fun role => role.ID != "")).count d +
      ((cr.Spec.Roles.filter (fun role => hasMatchingRole state.Roles role)).filter
        (fun role => role.ID == "")).count d +
      (cr.Spec.Roles.filter (fun role => !(hasMatchingRole state.Roles role))).count d := by
  rw [ReconcileRoles_eq, List.countP_append, List.countP_append, List.countP_append]
  have h1 : (((state.Roles.filter (fun role => !(hasMatchingRole cr.Spec.Roles role))).map
      (fun role => DeleteClientRoleAction role)).countP (fun a => newRole a == some d)) = 0 := by
    rw [List.countP_eq_zero]
    intro a ha
    simp only [List.mem_map] at ha
    obtain ⟨r, -, rfl⟩ := ha
    simp [newRole]
  have h2 : ((((cr.Spec.Roles.filter (fun role => hasMatchingRole state.Roles role)).filter
      (fun role => role.ID != "")).map
      (fun role => UpdateClientRoleAction role (existingRoleByID state.Roles role.ID))).countP
      (fun a => newRole a == some d)) =
      ((cr.Spec.Roles.filter (fun role => hasMatchingRole state.Roles role)).filter
        (fun role => role.ID != "")).count d := by
    rw [List.countP_map, List.count_eq_countP]
    apply List.countP_congr
    intro x hx
    simp [newRole]
  have h3 : ((((cr.Spec.Roles.filter (fun role => hasMatchingRole state.Roles role)).filter
      (fun role => role.ID == "")).map
      (fun role =>
        if (renamedRolesOldNames state.Roles
              (cr.Spec.Roles.filter (fun role => hasMatchingRole state.Roles role))).contains
            role.Name
        then CreateClientRoleAction role
        else UpdateClientRoleAction role role)).countP (fun a => newRole a == some d)) =
      ((cr.Spec.Roles.filter (fun role => hasMatchingRole state.Roles role)).filter
        (fun role => role.ID == "")).count d := by
    rw [List.countP_map, List.count_eq_countP]
    apply List.countP_congr
    intro x hx
    simp only [Function.comp_apply]
    split <;> simp [newRole]
  have h4 : (((cr.Spec.Roles.filter (fun role => !(hasMatchingRole state.Roles role))).map
      (fun role => CreateClientRoleAction role)).countP (fun a => newRole a == some d)) =
      (cr.Spec.Roles.filter (fun role => !(hasMatchingRole state.Roles role))).count d := by
    rw [List.countP_map, List.count_eq_countP]
    apply List.countP_congr
    intro x hx
    simp [newRole]
  rw [h1, h2, h3, h4]
  omega

/-- C7: with non-empty observed ids and duplicate-free collections,
every observed role with no match among the desired roles produces
exactly one delete action and is a payload of no other action; every
desired role with no match among the observed roles produces exactly
one create action; and every desired role is the new payload of
exactly one role action. -/
theorem C7_exactly_once (state : ClientState) (cr : KeycloakClient)
    (hids : ∀ r ∈ state.Roles, r.ID ≠ "")
    (hobsnd : state.Roles.Nodup) (hdesnd : cr.Spec.Roles.Nodup) :
    (∀ obs ∈ state.Roles, hasMatchingRole cr.Spec.Roles obs = false →
       (ReconcileRoles state cr).count (DeleteClientRoleAction obs) = 1 ∧
       ∀ a ∈ ReconcileRoles state cr, a ≠ DeleteClientRoleAction obs →
         obs ∉ actionRoles a) ∧
    (∀ d ∈ cr.Spec.Roles, hasMatchingRole state.Roles d = false →
       (ReconcileRoles state cr).count (CreateClientRoleAction d) = 1) ∧
    (∀ d ∈ cr.Spec.Roles,
       (ReconcileRoles state cr).countP (fun a => newRole a == some d) = 1) := by
  refine ⟨?_, ?_, ?_⟩
  · intro obs hobs hnm
    have hobsid : obs.ID ≠ "" := hids obs hobs
    constructor
    · rw [count_delete_ReconcileRoles, List.count_filter (by simp [hnm])]
      exact List.count_eq_one_of_mem hobsnd hobs
    · intro a ha hne
      rw [ReconcileRoles_eq] at ha
      simp only [List.mem_append, List.mem_map, List.mem_filter] at ha
      unfold hasMatchingRole at hnm
      rw [List.any_eq_false] at hnm
      rcases ha with ((⟨r, hr, rfl⟩ | ⟨r, hr, rfl⟩) | ⟨r, hr, hx⟩) | ⟨r, hr, rfl⟩
      · simp only [actionRoles, List.mem_singleton]
        intro hc
        exact hne (by rw [hc])
      · simp only [actionRoles, List.mem_cons, List.mem_singleton]
        rintro (hc | hc | hc)
        · apply hnm r hr.1.1
          rw [← hc]
          exact roleMatches_refl obs
        · apply hnm r hr.1.1
          have hrid : r.ID ≠ "" := by simpa using hr.2
          rcases existingRoleByID_spec state.Roles r.ID with ⟨-, hEQ⟩ | hzero
          · have hoid : obs.ID = r.ID := by rw [hc]; exact hEQ
            unfold roleMatches
            simp [hrid, hobsid]
            rw [hoid]
          · rw [← hc] at hzero
            exact absurd (by rw [hzero]) hobsid
        · cases hc
      · have hrid : r.ID = "" := by simpa using hr.2
        have hobsne : obs ≠ r := by
          intro hc
          rw [hc] at hobsid
          exact hobsid hrid
        split at hx <;> rw [← hx] <;> simp [actionRoles, hobsne]
      · simp only [actionRoles, List.mem_singleton]
        intro hc
        apply hnm r hr.1
        rw [← hc]
        exact roleMatches_refl obs
  · intro d hd hnm
    rw [count_create_ReconcileRoles state cr d hnm, List.count_filter (by simp [hnm])]
    exact List.count_eq_one_of_mem hdesnd hd
  · intro d hd
    rw [countP_newRole_ReconcileRoles]
    by_cases hm : hasMatchingRole state.Roles d = true
    · have hN : (cr.Spec.Roles.filter
          (fun role => !(hasMatchingRole state.Roles role))).count d = 0 :=
        count_filter_of_neg _ (by simp [hm])
      by_cases hID : d.ID = ""
      · have hA : ((cr.Spec.Roles.filter (fun role => hasMatchingRole state.Roles role)).filter
            (fun role => role.ID != "")).count d = 0 :=
          count_filter_of_neg _ (by simp [hID])
        have hB : ((cr.Spec.Roles.filter (fun role => hasMatchingRole state.Roles role)).filter
            (fun role => role.ID == "")).count d =
            (cr.Spec.Roles.filter (fun role => hasMatchingRole state.Roles role)).count d := by
          rw [List.count_filter (by simp [hID])]
        rw [hA, hB, hN, List.count_filter (by simp [hm])]
        have := List.count_eq_one_of_mem hdesnd hd
        omega
      · have hA : ((cr.Spec.Roles.filter (fun role => hasMatchingRole state.Roles role)).filter
            (fun role => role.ID != "")).count d =
            (cr.Spec.Roles.filter (fun role => hasMatchingRole state.Roles role)).count d := by
          rw [List.count_filter (by simp [hID])]
        have hB : ((cr.Spec.Roles.filter (fun role => hasMatchingRole state.Roles role)).filter
            (fun role => role.ID == "")).count d = 0 :=
          count_filter_of_neg _ (by simp [hID])
        rw [hA, hB, hN, List.count_filter (by simp [hm])]
        have := List.count_eq_one_of_mem hdesnd hd
        omega
    · have hm2 : hasMatchingRole state.Roles d = false := by
        cases h : hasMatchingRole state.Roles d
        · rfl
        · exact absurd h hm
      have hM : (cr.Spec.Roles.filter
          (fun role => hasMatchingRole state.Roles role)).count d = 0 :=
        count_filter_of_neg _ (by simp [hm2])
      have hA : ((cr.Spec.Roles.filter (fun role => hasMatchingRole state.Roles role)).filter
          (fun role => role.ID != "")).count d = 0 := by
        rw [List.count_eq_zero] at hM ⊢
        intro hc
        exact hM (List.mem_of_mem_filter hc)
      have hB : ((cr.Spec.Roles.filter (fun role => hasMatchingRole state.Roles role)).filter
          (fun role => role.ID == "")).count d = 0 := by
        rw [List.count_eq_zero] at hM ⊢
        intro hc
        exact hM (List.mem_of_mem_filter hc)
      rw [hA, hB, List.count_filter (by simp [hm2])]
      have := List.count_eq_one_of_mem hdesnd hd
      omega

/-- Witness for C7: observed `{id:1,name:a}` and desired
`{id:2,name:b}`, both unmatched. -/
theorem C7_exactly_once_witness :
    (∀ obs ∈ ClientState.Roles ⟨some (), some (), [⟨"1", "a"⟩]⟩,
       hasMatchingRole [⟨"2", "b"⟩] obs = false →
       (ReconcileRoles ⟨some (), some (), [⟨"1", "a"⟩]⟩
           ⟨none, ⟨[⟨"2", "b"⟩]⟩⟩).count (DeleteClientRoleAction obs) = 1 ∧
       ∀ a ∈ ReconcileRoles ⟨some (), some (), [⟨"1", "a"⟩]⟩ ⟨none, ⟨[⟨"2", "b"⟩]⟩⟩,
         a ≠ DeleteClientRoleAction obs → obs ∉ actionRoles a) ∧
    (∀ d ∈ [(⟨"2", "b"⟩ : RoleRepresentation)], hasMatchingRole [⟨"1", "a"⟩] d = false →
       (ReconcileRoles ⟨some (), some (), [⟨"1", "a"⟩]⟩
           ⟨none, ⟨[⟨"2", "b"⟩]⟩⟩).count (CreateClientRoleAction d) = 1) ∧
    (∀ d ∈ [(⟨"2", "b"⟩ : RoleRepresentation)],
       (ReconcileRoles ⟨some (), some (), [⟨"1", "a"⟩]⟩
           ⟨none, ⟨[⟨"2", "b"⟩]⟩⟩).countP (fun a => newRole a == some d) = 1) :=
  C7_exactly_once ⟨some (), some (), [⟨"1", "a"⟩]⟩ ⟨none, ⟨[⟨"2", "b"⟩]⟩⟩
    (by decide) (by decide) (by decide)

end KeycloakOperator
